import Mathlib

/-!
Verification development for the `reroll` dice-notation interpreter
(src/src/parser.rs, src/src/eval.rs, src/src/main.rs).

The data model and the evaluator are embedded shallowly:

* Rust `i32` values are modelled as `Int`; where the code casts to `usize`
  (`count as usize` in the keep/drop modifiers) the cast is modelled exactly
  as the 64-bit two's-complement reinterpretation `usizeOfI32`.
* The global random generator (`fastrand`) is modelled as an explicitly
  threaded stream `Rng = Nat → Nat` of raw draws; `fastrand::i32(1..=sides)`
  returns some value in `[1, sides]` and panics when the range is empty
  (`sides < 1`), modelled by `roll`.
* Rust `panic!` / `.expect` / `.unwrap` failures are modelled by the
  `EvalErr.panic` error branch; the source evaluator has no recoverable
  `Result` channel, so `EvalErr.panic` is its only failure mode besides
  `EvalErr.fuelOut`, which models non-termination: the `explode` while-loop
  of eval.rs is not structurally terminating, so the evaluator is
  step-indexed by a fuel counter, and a result of `.error .fuelOut` for
  every fuel means the Rust loop diverges.
-/

/-- Modifier kinds, from `enum DiceModifierType` in src/src/parser.rs. -/
inductive DiceModifierType where
  | KeepHigh
  | KeepLow
  | DropHigh
  | DropLow
  | Explode
deriving DecidableEq

/-- Expression trees, from `enum Expr` in src/src/parser.rs.  A dice modifier
`struct DiceModifier \x7b kind, value \x7d` is represented as the pair
`DiceModifierType × Option Expr`. -/
inductive Expr where
  | Number (n : Int)
  | Dice (count : Expr) (sides : Expr) (modifiers : List (DiceModifierType × Option Expr))
  | BinaryOp (l : Expr) (op : Char) (r : Expr)
  | Repetition (count : Expr) (e : Expr) (modifiers : List (DiceModifierType × Option Expr))

/-- A dice modifier, `struct DiceModifier` of src/src/parser.rs: `.1` is the
`kind` field and `.2` the optional `value` sub-expression. -/
def DiceModifier := DiceModifierType × Option Expr

/-- Evaluation results, from `enum EvalResult` in src/src/eval.rs. -/
inductive EvalResult where
  | Rolls (v : List Int)
  | Number (n : Int)

/-- Failure modes of the embedded evaluator: `panic msg` models a Rust
`panic` / `expect` / `unwrap` abort with that message, `fuelOut` models the
step-index (fuel) running out, i.e. a computation the Rust code has not
finished within that many loop iterations / recursive calls. -/
inductive EvalErr where
  | panic (msg : String)
  | fuelOut
deriving DecidableEq

/-- The stream of raw pseudorandom draws: the `fastrand` global generator
reframed as an explicit dependency (spec section 9). -/
def Rng := Nat → Nat

/-- `fn roll(sides: i32) -> i32` of src/src/eval.rs: `fastrand::i32(1..=sides)`
draws a value in the inclusive range `[1, sides]` and panics when the range
is empty, i.e. when `sides < 1`.  The draw is modelled as
`1 + (raw % sides)`, which is exactly the set of values the range admits. -/
def roll (sides : Int) (g : Rng) : Except EvalErr (Int × Rng) :=
  if sides < 1 then
    Except.error (EvalErr.panic "empty range")
  else
    Except.ok (1 + (Int.ofNat (g 0)) % sides, fun n => g (n + 1))

/-- `EvalResult::to_number` of src/src/eval.rs: a scalar is itself, a roll
sequence is reduced by summation. -/
def to_number : EvalResult → Int
  | EvalResult.Number n => n
  | EvalResult.Rolls v => v.sum

/-- The `i32 → usize` cast `count as usize` used by the keep/drop modifiers
in src/src/eval.rs: sign-extension to 64 bits reinterpreted as unsigned. -/
def usizeOfI32 (n : Int) : Nat := (n % (2 : Int) ^ 64).toNat

/-- Descending stable sort, `rolls.sort_by(|a, b| b.cmp(a))` of
src/src/eval.rs.  On plain integers the stable descending sort is the unique
`≥`-sorted permutation, so `insertionSort` models it exactly. -/
def sortDesc (rolls : List Int) : List Int :=
  List.insertionSort (fun a b => b ≤ a) rolls

/-- Ascending stable sort, `rolls.sort()` of src/src/eval.rs. -/
def sortAsc (rolls : List Int) : List Int :=
  List.insertionSort (fun a b => a ≤ b) rolls

/-- `fn keep_high` of src/src/eval.rs: sort descending, then
`truncate(count as usize)` — `Vec::truncate` keeps the first
`min(count, len)` elements, silently clamping. -/
def keep_high (rolls : List Int) (count : Int) : List Int :=
  (sortDesc rolls).take (usizeOfI32 count)

/-- `fn keep_low` of src/src/eval.rs: sort ascending, then truncate. -/
def keep_low (rolls : List Int) (count : Int) : List Int :=
  (sortAsc rolls).take (usizeOfI32 count)

/-- `fn drop_high` of src/src/eval.rs: sort descending, then
`drain(0..count as usize)` — `Vec::drain` panics when the range end exceeds
the vector length, otherwise removes the first `count` elements. -/
def drop_high (rolls : List Int) (count : Int) : Except EvalErr (List Int) :=
  if usizeOfI32 count ≤ rolls.length then
    Except.ok ((sortDesc rolls).drop (usizeOfI32 count))
  else
    Except.error (EvalErr.panic "drain range end out of range")

/-- `fn drop_low` of src/src/eval.rs: sort ascending, then drain. -/
def drop_low (rolls : List Int) (count : Int) : Except EvalErr (List Int) :=
  if usizeOfI32 count ≤ rolls.length then
    Except.ok ((sortAsc rolls).drop (usizeOfI32 count))
  else
    Except.error (EvalErr.panic "drain range end out of range")

/-- The loop body of `fn explode` of src/src/eval.rs, step-indexed by fuel:
`i` walks the sequence; while `rolls[i] >= threshold` a fresh roll is pushed
to the end, and the inner loop breaks as soon as a fresh roll falls below
the threshold.  Each loop iteration consumes one unit of fuel; exhausted
fuel (`.error .fuelOut`) means the Rust loop has not terminated within that
many iterations. -/
def explodeGo : Nat → List Int → Nat → Int → Int → Rng → Except EvalErr (List Int × Rng)
  | 0, _, _, _, _, _ => Except.error EvalErr.fuelOut
  | fuel + 1, rolls, i, sides, threshold, g =>
    if h : i < rolls.length then
      if threshold ≤ rolls.get ⟨i, h⟩ then
        match roll sides g with
        | Except.error err => Except.error err
        | Except.ok (new_roll, g') =>
          if new_roll < threshold then
            explodeGo fuel (rolls ++ [new_roll]) (i + 1) sides threshold g'
          else
            explodeGo fuel (rolls ++ [new_roll]) i sides threshold g'
      else
        explodeGo fuel rolls (i + 1) sides threshold g
    else
      Except.ok (rolls, g)

/-- `fn explode` of src/src/eval.rs, starting the walk at index 0. -/
def explode (fuel : Nat) (rolls : List Int) (sides threshold : Int) (g : Rng) :
    Except EvalErr (List Int × Rng) :=
  explodeGo fuel rolls 0 sides threshold g

/-- The roll-collecting loop of `fn eval_dice`:
`for _ in 0..count \x7b rolls.push(roll(sides)) \x7d`, with the iteration
count already converted to a natural number (`0..count` is empty when
`count ≤ 0`). -/
def rollN : Nat → Int → Rng → Except EvalErr (List Int × Rng)
  | 0, _, g => Except.ok ([], g)
  | n + 1, sides, g =>
    match roll sides g with
    | Except.error err => Except.error err
    | Except.ok (r, g) =>
      match rollN n sides g with
      | Except.error err => Except.error err
      | Except.ok (rs, g) => Except.ok (r :: rs, g)

/-- The result-collecting loop of `fn eval_rep`:
`for _ in 0..count \x7b result.push(eval_expr(expr).to_number()) \x7d`,
parameterised by the evaluator `ev` used for the sub-expression. -/
def evalN (ev : Expr → Rng → Except EvalErr (EvalResult × Rng)) :
    Nat → Expr → Rng → Except EvalErr (List Int × Rng)
  | 0, _, g => Except.ok ([], g)
  | n + 1, e, g =>
    match ev e g with
    | Except.error err => Except.error err
    | Except.ok (r, g) =>
      match evalN ev n e g with
      | Except.error err => Except.error err
      | Except.ok (rs, g) => Except.ok (to_number r :: rs, g)

/-- `fn eval_modifiers` of src/src/eval.rs: fold the modifier list
left-to-right over the working sequence.  For each modifier, first compute
its `value`: an explicit value sub-expression is evaluated (via `ev`);
a missing value defaults to the die sides for `Explode` (panicking when no
sides are known) and panics for every other kind.  The sequence is then
transformed by the modifier kind; `Explode` additionally re-reads the sides
(`sides.expect("Missing sides")`).  The final sequence is returned as
`Rolls`. -/
def eval_modifiers (ev : Expr → Rng → Except EvalErr (EvalResult × Rng)) (fuel : Nat) :
    List Int → List (DiceModifierType × Option Expr) → Option Int → Rng →
    Except EvalErr (EvalResult × Rng)
  | rolls, [], _, g => Except.ok (EvalResult.Rolls rolls, g)
  | rolls, m :: rest, sides, g =>
    match (match m.2 with
           | some expr =>
             match ev expr g with
             | Except.error err => Except.error err
             | Except.ok (r, g) => Except.ok (to_number r, g)
           | none =>
             if m.1 = DiceModifierType.Explode then
               match sides with
               | some s => Except.ok (s, g)
               | none => Except.error (EvalErr.panic "Explode requires number of sides.")
             else
               Except.error (EvalErr.panic
                 "All dice modifiers (except explode) must be followed by a value. E.g. 4d6kh3")
           : Except EvalErr (Int × Rng)) with
    | Except.error err => Except.error err
    | Except.ok (value, g) =>
      match (match m.1 with
             | DiceModifierType.KeepHigh => Except.ok (keep_high rolls value, g)
             | DiceModifierType.KeepLow => Except.ok (keep_low rolls value, g)
             | DiceModifierType.DropHigh =>
               match drop_high rolls value with
               | Except.error err => Except.error err
               | Except.ok v => Except.ok (v, g)
             | DiceModifierType.DropLow =>
               match drop_low rolls value with
               | Except.error err => Except.error err
               | Except.ok v => Except.ok (v, g)
             | DiceModifierType.Explode =>
               match sides with
               | some s => explode fuel rolls s value g
               | none => Except.error (EvalErr.panic "Missing sides")
             : Except EvalErr (List Int × Rng)) with
      | Except.error err => Except.error err
      | Except.ok (rolls, g) => eval_modifiers ev fuel rolls rest sides g

/-- `fn eval_op` of src/src/eval.rs: evaluate both operands to scalars, then
apply the operator.  Division checks the divisor and panics with
"division by zero!"; an unknown operator panics as an internal-invariant
violation.  Integer division in Rust truncates toward zero (`Int.tdiv`). -/
def eval_op (ev : Expr → Rng → Except EvalErr (EvalResult × Rng))
    (exp1 : Expr) (op : Char) (exp2 : Expr) (g : Rng) :
    Except EvalErr (EvalResult × Rng) :=
  match ev exp1 g with
  | Except.error err => Except.error err
  | Except.ok (r1, g) =>
    match ev exp2 g with
    | Except.error err => Except.error err
    | Except.ok (r2, g) =>
      let v1 := to_number r1
      let v2 := to_number r2
      match op with
      | '+' => Except.ok (EvalResult.Number (v1 + v2), g)
      | '-' => Except.ok (EvalResult.Number (v1 - v2), g)
      | '*' => Except.ok (EvalResult.Number (v1 * v2), g)
      | '/' =>
        if v2 = 0 then Except.error (EvalErr.panic "division by zero!")
        else Except.ok (EvalResult.Number (Int.tdiv v1 v2), g)
      | _ => Except.error (EvalErr.panic "unsupported operation")

/-- `fn eval_dice` of src/src/eval.rs: evaluate `count` then `sides` to
scalars, draw `count` rolls, then apply the modifiers with the sides
available. -/
def eval_dice (ev : Expr → Rng → Except EvalErr (EvalResult × Rng)) (fuel : Nat)
    (count sides : Expr) (modifiers : List (DiceModifierType × Option Expr)) (g : Rng) :
    Except EvalErr (EvalResult × Rng) :=
  match ev count g with
  | Except.error err => Except.error err
  | Except.ok (rc, g) =>
    match ev sides g with
    | Except.error err => Except.error err
    | Except.ok (rs, g) =>
      match rollN (to_number rc).toNat (to_number rs) g with
      | Except.error err => Except.error err
      | Except.ok (rolls, g) =>
        eval_modifiers ev fuel rolls modifiers (some (to_number rs)) g

/-- `fn eval_rep` of src/src/eval.rs: evaluate `count`, evaluate the body
that many times collecting scalars, then apply the modifiers with no sides
available. -/
def eval_rep (ev : Expr → Rng → Except EvalErr (EvalResult × Rng)) (fuel : Nat)
    (count e : Expr) (modifiers : List (DiceModifierType × Option Expr)) (g : Rng) :
    Except EvalErr (EvalResult × Rng) :=
  match ev count g with
  | Except.error err => Except.error err
  | Except.ok (rc, g) =>
    match evalN ev (to_number rc).toNat e g with
    | Except.error err => Except.error err
    | Except.ok (result, g) => eval_modifiers ev fuel result modifiers none g

/-- `fn eval_expr` of src/src/eval.rs, step-indexed by fuel: dispatch on the
expression kind.  Every recursive call runs at one less fuel, so
`.error .fuelOut` at every fuel means the Rust evaluation diverges, and any
`.ok` / `.panic` outcome is the Rust outcome. -/
def eval_expr : Nat → Expr → Rng → Except EvalErr (EvalResult × Rng)
  | 0, _, _ => Except.error EvalErr.fuelOut
  | _ + 1, Expr.Number n, g => Except.ok (EvalResult.Number n, g)
  | fuel + 1, Expr.Dice count sides mods, g => eval_dice (eval_expr fuel) fuel count sides mods g
  | fuel + 1, Expr.BinaryOp e1 op e2, g => eval_op (eval_expr fuel) e1 op e2 g
  | fuel + 1, Expr.Repetition count e mods, g => eval_rep (eval_expr fuel) fuel count e mods g

/-- A child of a `dice` production as delivered by the grammar engine to
`parse_expr` (src/src/parser.rs, `Rule::dice` arm): either an already-parsed
dice modifier (a `Rule::dice_modifier` child run through
`parse_dice_modifier`) or an already-parsed numeric/parenthesized
sub-expression (a `Rule::number` or `Rule::expr` child run through
`parse_expr`). -/
inductive DiceChild where
  | modChild (m : DiceModifierType × Option Expr)
  | exprChild (e : Expr)

/-- The child-collecting loop of the `Rule::dice` arm of `parse_expr`
(src/src/parser.rs lines 68-99): `count` starts at `Number(1)`, `sides` at
`Number(1)`, `set_sides` at false; a modifier child is pushed onto the
modifier list; a numeric/parenthesized child becomes the new `sides`, the
previous `sides` moving to `count` when `set_sides` was already set. -/
def diceLoop : List DiceChild → Expr → Expr → List (DiceModifierType × Option Expr) → Bool → Expr
  | [], count, sides, modifiers, _ => Expr.Dice count sides modifiers
  | DiceChild.modChild m :: rest, count, sides, modifiers, set_sides =>
    diceLoop rest count sides (modifiers ++ [m]) set_sides
  | DiceChild.exprChild e :: rest, count, sides, modifiers, set_sides =>
    if set_sides then
      diceLoop rest sides e modifiers set_sides
    else
      diceLoop rest count e modifiers true

/-- The full `Rule::dice` arm of `parse_expr`: run the loop from the initial
state. -/
def diceFromChildren (children : List DiceChild) : Expr :=
  diceLoop children (Expr.Number 1) (Expr.Number 1) [] false

/-- The non-modifier (numeric / parenthesized) children of a dice
production, in document order. -/
def exprChildren : List DiceChild → List Expr
  | [] => []
  | DiceChild.modChild _ :: rest => exprChildren rest
  | DiceChild.exprChild e :: rest => e :: exprChildren rest

/-- The modifier children of a dice production, in document order. -/
def modsOf : List DiceChild → List (DiceModifierType × Option Expr)
  | [] => []
  | DiceChild.modChild m :: rest => m :: modsOf rest
  | DiceChild.exprChild _ :: rest => modsOf rest

/-- The numeric value of a decimal digit string, digits given most
significant first as numbers below 10. -/
def digitsVal (ds : List Nat) : Nat := ds.foldl (fun a d => 10 * a + d) 0

/-- Whether a token is a nonempty run of decimal digits — the shape the
grammar rule for numbers accepts. -/
def isDigits (ds : List Nat) : Bool :=
  match ds with
  | [] => false
  | _ => ds.all (fun d => d < 10)

/-- `str::parse::<i32>()` on a pure digit run: `Ok` exactly when the value
fits in a 32-bit signed integer (at most 2147483647), `Err` on overflow. -/
def rustParseI32 (ds : List Nat) : Option Int :=
  if isDigits ds && decide (digitsVal ds ≤ 2147483647) then
    some (Int.ofNat (digitsVal ds))
  else
    none

/-- Outcome of the top-level `parse` entry point of src/src/parser.rs,
keeping the returned error branch (`Err` of the `Result`) separate from a
Rust panic escaping `parse`. -/
inductive ParseOutcome where
  | ok (es : List Expr)
  | err (msg : String)
  | panicked (msg : String)

/-- Modelled from the spec: the grammar file `dice.pest` named by
src/src/parser.rs is not under src, so the token-level acceptance is taken
from spec section 4.1 — `number := digits`, and an input consisting solely
of a digit run parses as that single number token; a non-digit input of this
shape is a grammar-level parse error returned as the `Err` branch
(parser.rs lines 134-141).  The accepted token is then converted by the
`Rule::number` arm of `parse_expr` (parser.rs line 66):
`pair.as_str().parse::<i32>().unwrap()`, whose `unwrap` panics when the
conversion overflows `i32`. -/
def parseNumeralInput (ds : List Nat) : ParseOutcome :=
  if isDigits ds then
    match rustParseI32 ds with
    | some n => ParseOutcome.ok [Expr.Number n]
    | none => ParseOutcome.panicked "called Result unwrap on an Err value"
  else
    ParseOutcome.err "Parse error: expected number"

lemma usizeOfI32_eq_toNat (k : Int) (h0 : 0 ≤ k) (h64 : k < (2 : Int) ^ 64) :
    usizeOfI32 k = k.toNat := by
  unfold usizeOfI32
  rw [Int.emod_eq_of_lt h0 h64]

lemma sortDesc_sorted (v : List Int) :
    List.Sorted (fun a b : Int => b ≤ a) (sortDesc v) := by
  haveI : IsTotal Int (fun a b : Int => b ≤ a) := ⟨fun a b => le_total b a⟩
  haveI : IsTrans Int (fun a b : Int => b ≤ a) := ⟨fun _ _ _ h1 h2 => le_trans h2 h1⟩
  exact List.sorted_insertionSort _ v

lemma sortAsc_sorted (v : List Int) :
    List.Sorted (fun a b : Int => a ≤ b) (sortAsc v) := by
  haveI : IsTotal Int (fun a b : Int => a ≤ b) := ⟨fun a b => le_total a b⟩
  haveI : IsTrans Int (fun a b : Int => a ≤ b) := ⟨fun _ _ _ h1 h2 => le_trans h1 h2⟩
  exact List.sorted_insertionSort _ v

lemma sortDesc_perm (v : List Int) : (sortDesc v).Perm v :=
  List.perm_insertionSort _ v

lemma sortAsc_perm (v : List Int) : (sortAsc v).Perm v :=
  List.perm_insertionSort _ v

/-- Claim C1 counterexample: the clamping policy is not applied to the Drop
modifiers.  On the one-element sequence `[5]` with `k = 2`, `drop_high`
panics (`Vec::drain` with an out-of-range end), instead of returning the
empty sequence as the claim states. -/
theorem c1_counterexample :
    drop_high [(5 : Int)] 2 = Except.error (EvalErr.panic "drain range end out of range") := rfl

/-- Claim C1 amended: when `k` exceeds the length of the working sequence,
the two Keep modifiers silently clamp (`Vec::truncate`), returning the whole
sorted sequence, but the two Drop modifiers panic (`Vec::drain` with an
out-of-range end) rather than returning the empty sequence; the clamping
policy therefore holds only for Keep, not for all four modifier kinds. -/
theorem c1_keep_clamps_drop_panics (v : List Int) (k : Int)
    (h : v.length < usizeOfI32 k) :
    keep_high v k = sortDesc v ∧ keep_low v k = sortAsc v ∧
    drop_high v k = Except.error (EvalErr.panic "drain range end out of range") ∧
    drop_low v k = Except.error (EvalErr.panic "drain range end out of range") := by
  have hd : (sortDesc v).length = v.length := (sortDesc_perm v).length_eq
  have ha : (sortAsc v).length = v.length := (sortAsc_perm v).length_eq
  refine ⟨?_, ?_, ?_, ?_⟩
  · unfold keep_high
    exact List.take_of_length_le (by omega)
  · unfold keep_low
    exact List.take_of_length_le (by omega)
  · unfold drop_high
    rw [if_neg (by omega)]
  · unfold drop_low
    rw [if_neg (by omega)]

/-- Witness for the amended C1 at the concrete input `v = [5]`, `k = 2`. -/
theorem c1_witness :
    ([(5 : Int)].length < usizeOfI32 2) ∧
    (keep_high [(5 : Int)] 2 = sortDesc [(5 : Int)] ∧
     keep_low [(5 : Int)] 2 = sortAsc [(5 : Int)] ∧
     drop_high [(5 : Int)] 2 = Except.error (EvalErr.panic "drain range end out of range") ∧
     drop_low [(5 : Int)] 2 = Except.error (EvalErr.panic "drain range end out of range")) :=
  ⟨by decide, c1_keep_clamps_drop_panics [(5 : Int)] 2 (by decide)⟩

lemma usizeOfI32_small (k : Int) (h0 : 0 ≤ k) (h31 : k < (2 : Int) ^ 31) :
    usizeOfI32 k = k.toNat :=
  usizeOfI32_eq_toNat k h0 (lt_trans h31 (by norm_num))

/-- Claim C9: `keep_high` sorts the sequence descending and retains the
first `k` elements.  For `0 ≤ k ≤ n` (with `k` in the `i32` range as in the
program) the result has length exactly `k`, is sorted descending, is a
sub-multiset of the original sequence, and every retained element is at
least as large as every element not retained — i.e. the result is exactly
the `k` largest values as a multiset. -/
theorem c9_keep_high_spec (v : List Int) (k : Int)
    (h0 : 0 ≤ k) (h31 : k < (2 : Int) ^ 31) (hk : k.toNat ≤ v.length) :
    keep_high v k = (sortDesc v).take k.toNat ∧
    (keep_high v k).length = k.toNat ∧
    List.Sorted (fun a b : Int => b ≤ a) (keep_high v k) ∧
    (↑(keep_high v k) : Multiset Int) ≤ ↑v ∧
    ∀ x ∈ keep_high v k, ∀ y ∈ (↑v : Multiset Int) - ↑(keep_high v k), y ≤ x := by
  have hcast : usizeOfI32 k = k.toNat := usizeOfI32_small k h0 h31
  have hdef : keep_high v k = (sortDesc v).take k.toNat := by
    unfold keep_high
    rw [hcast]
  have hlen : (sortDesc v).length = v.length := (sortDesc_perm v).length_eq
  have hsub : List.Sublist ((sortDesc v).take k.toNat) (sortDesc v) := List.take_sublist _ _
  refine ⟨hdef, ?_, ?_, ?_, ?_⟩
  · rw [hdef, List.length_take]
    omega
  · rw [hdef]
    exact List.Pairwise.sublist hsub (sortDesc_sorted v)
  · rw [hdef]
    exact Multiset.coe_le.mpr (hsub.subperm.trans (sortDesc_perm v).subperm)
  · intro x hx y hy
    rw [hdef] at hx hy
    have hsplit : (sortDesc v).take k.toNat ++ (sortDesc v).drop k.toNat = sortDesc v :=
      List.take_append_drop _ _
    have hveq : (↑v : Multiset Int) =
        ↑((sortDesc v).take k.toNat) + ↑((sortDesc v).drop k.toNat) := by
      rw [Multiset.coe_add, ← Multiset.coe_eq_coe.mpr (sortDesc_perm v), hsplit]
    rw [hveq, add_tsub_cancel_left, Multiset.mem_coe] at hy
    have hsorted := sortDesc_sorted v
    rw [← hsplit] at hsorted
    exact (List.pairwise_append.mp hsorted).2.2 x hx y hy

/-- Witness for C9 at the concrete sequence `[3, 5, 2, 5]` with `k = 3`
(the shape of `4d6kh3`: keep the 3 largest of 4 draws). -/
theorem c9_witness :
    ((0 : Int) ≤ 3 ∧ (3 : Int) < (2 : Int) ^ 31 ∧ (3 : Int).toNat ≤ [(3 : Int), 5, 2, 5].length) ∧
    (keep_high [(3 : Int), 5, 2, 5] 3 = (sortDesc [(3 : Int), 5, 2, 5]).take (3 : Int).toNat ∧
     (keep_high [(3 : Int), 5, 2, 5] 3).length = (3 : Int).toNat ∧
     List.Sorted (fun a b : Int => b ≤ a) (keep_high [(3 : Int), 5, 2, 5] 3) ∧
     (↑(keep_high [(3 : Int), 5, 2, 5] 3) : Multiset Int) ≤ ↑[(3 : Int), 5, 2, 5] ∧
     ∀ x ∈ keep_high [(3 : Int), 5, 2, 5] 3,
       ∀ y ∈ (↑[(3 : Int), 5, 2, 5] : Multiset Int) - ↑(keep_high [(3 : Int), 5, 2, 5] 3),
         y ≤ x) :=
  ⟨⟨by decide, by decide, by decide⟩,
   c9_keep_high_spec [(3 : Int), 5, 2, 5] 3 (by decide) (by decide) (by decide)⟩

/-- Claim C10: a Keep and its same-polarity Drop with the same in-range `k`
partition the rolled multiset: `keep_high v k ++ drop_high v k` is exactly
`v` sorted descending (and the Drop succeeds, returning the dropped-to
remainder), and `keep_low v k ++ drop_low v k` is exactly `v` sorted
ascending. -/
theorem c10_keep_drop_partition (v : List Int) (k : Int)
    (h0 : 0 ≤ k) (h31 : k < (2 : Int) ^ 31) (hk : k.toNat ≤ v.length) :
    (drop_high v k = Except.ok ((sortDesc v).drop k.toNat) ∧
     keep_high v k ++ (sortDesc v).drop k.toNat = sortDesc v ∧
     (sortDesc v).Perm v ∧ List.Sorted (fun a b : Int => b ≤ a) (sortDesc v)) ∧
    (drop_low v k = Except.ok ((sortAsc v).drop k.toNat) ∧
     keep_low v k ++ (sortAsc v).drop k.toNat = sortAsc v ∧
     (sortAsc v).Perm v ∧ List.Sorted (fun a b : Int => a ≤ b) (sortAsc v)) := by
  have hcast : usizeOfI32 k = k.toNat := usizeOfI32_small k h0 h31
  refine ⟨⟨?_, ?_, sortDesc_perm v, sortDesc_sorted v⟩,
          ⟨?_, ?_, sortAsc_perm v, sortAsc_sorted v⟩⟩
  · unfold drop_high
    rw [hcast, if_pos hk]
  · unfold keep_high
    rw [hcast]
    exact List.take_append_drop _ _
  · unfold drop_low
    rw [hcast, if_pos hk]
  · unfold keep_low
    rw [hcast]
    exact List.take_append_drop _ _

/-- Witness for C10 at the concrete sequence `[3, 5, 2, 5]` with `k = 2`. -/
theorem c10_witness :
    ((0 : Int) ≤ 2 ∧ (2 : Int) < (2 : Int) ^ 31 ∧ (2 : Int).toNat ≤ [(3 : Int), 5, 2, 5].length) ∧
    ((drop_high [(3 : Int), 5, 2, 5] 2 =
        Except.ok ((sortDesc [(3 : Int), 5, 2, 5]).drop (2 : Int).toNat) ∧
      keep_high [(3 : Int), 5, 2, 5] 2 ++ (sortDesc [(3 : Int), 5, 2, 5]).drop (2 : Int).toNat =
        sortDesc [(3 : Int), 5, 2, 5] ∧
      (sortDesc [(3 : Int), 5, 2, 5]).Perm [(3 : Int), 5, 2, 5] ∧
      List.Sorted (fun a b : Int => b ≤ a) (sortDesc [(3 : Int), 5, 2, 5])) ∧
     (drop_low [(3 : Int), 5, 2, 5] 2 =
        Except.ok ((sortAsc [(3 : Int), 5, 2, 5]).drop (2 : Int).toNat) ∧
      keep_low [(3 : Int), 5, 2, 5] 2 ++ (sortAsc [(3 : Int), 5, 2, 5]).drop (2 : Int).toNat =
        sortAsc [(3 : Int), 5, 2, 5] ∧
      (sortAsc [(3 : Int), 5, 2, 5]).Perm [(3 : Int), 5, 2, 5] ∧
      List.Sorted (fun a b : Int => a ≤ b) (sortAsc [(3 : Int), 5, 2, 5]))) :=
  ⟨⟨by decide, by decide, by decide⟩,
   c10_keep_drop_partition [(3 : Int), 5, 2, 5] 2 (by decide) (by decide) (by decide)⟩

lemma diceLoop_no_expr (children : List DiceChild)
    (h : exprChildren children = []) :
    ∀ (c s : Expr) (m : List (DiceModifierType × Option Expr)) (b : Bool),
      diceLoop children c s m b = Expr.Dice c s (m ++ modsOf children) := by
  induction children with
  | nil => intro c s m b; simp [diceLoop, modsOf]
  | cons child rest ih =>
    intro c s m b
    cases child with
    | modChild m0 =>
      simp only [exprChildren] at h
      simp only [diceLoop, modsOf]
      rw [ih h]
      simp
    | exprChild e => simp [exprChildren] at h

lemma diceLoop_one_expr (children : List DiceChild) (e : Expr)
    (h : exprChildren children = [e]) :
    ∀ (c s : Expr) (m : List (DiceModifierType × Option Expr)),
      diceLoop children c s m false = Expr.Dice c e (m ++ modsOf children) ∧
      diceLoop children c s m true = Expr.Dice s e (m ++ modsOf children) := by
  induction children with
  | nil => simp [exprChildren] at h
  | cons child rest ih =>
    intro c s m
    cases child with
    | modChild m0 =>
      simp only [exprChildren] at h
      simp only [diceLoop, modsOf]
      rw [(ih h c s (m ++ [m0])).1, (ih h c s (m ++ [m0])).2]
      simp
    | exprChild e0 =>
      simp only [exprChildren, List.cons.injEq] at h
      obtain ⟨rfl, hrest⟩ := h
      simp only [diceLoop, modsOf, if_true, if_false, Bool.false_eq_true]
      constructor
      · rw [diceLoop_no_expr rest hrest]
      · rw [diceLoop_no_expr rest hrest]

lemma diceLoop_two_expr (children : List DiceChild) (e1 e2 : Expr)
    (h : exprChildren children = [e1, e2]) :
    ∀ (c s : Expr) (m : List (DiceModifierType × Option Expr)),
      diceLoop children c s m false = Expr.Dice e1 e2 (m ++ modsOf children) := by
  induction children with
  | nil => simp [exprChildren] at h
  | cons child rest ih =>
    intro c s m
    cases child with
    | modChild m0 =>
      simp only [exprChildren] at h
      simp only [diceLoop, modsOf]
      rw [ih h]
      simp
    | exprChild e0 =>
      simp only [exprChildren, List.cons.injEq] at h
      obtain ⟨rfl, hrest⟩ := h
      simp only [diceLoop, Bool.false_eq_true, if_false, modsOf]
      exact (diceLoop_one_expr rest e2 hrest c e0 m).2

/-- Claim C6: in the `Rule::dice` arm of `parse_expr`, after collecting the
non-modifier children in document order: a single numeric/parenthesized
child becomes `sides` with `count` left at `Number(1)`, and with two such
children the first becomes `count` and the second (the last numeric child)
becomes `sides` — for arbitrary child expressions, hence also when they are
nested parenthesized sub-expressions. -/
theorem c6_dice_children (children : List DiceChild) :
    (∀ e, exprChildren children = [e] →
      diceFromChildren children = Expr.Dice (Expr.Number 1) e (modsOf children)) ∧
    (∀ e1 e2, exprChildren children = [e1, e2] →
      diceFromChildren children = Expr.Dice e1 e2 (modsOf children)) := by
  constructor
  · intro e h
    unfold diceFromChildren
    have := (diceLoop_one_expr children e h (Expr.Number 1) (Expr.Number 1) []).1
    simpa using this
  · intro e1 e2 h
    unfold diceFromChildren
    have := diceLoop_two_expr children e1 e2 h (Expr.Number 1) (Expr.Number 1) []
    simpa using this

/-- Witness for C6: the children of `4d6kh3` (two numeric children, then a
modifier), and a one-child dice whose sides is a parenthesized
sub-expression, as in `d(1+2)`. -/
theorem c6_witness :
    (exprChildren [DiceChild.exprChild (Expr.Number 4), DiceChild.exprChild (Expr.Number 6),
        DiceChild.modChild (DiceModifierType.KeepHigh, some (Expr.Number 3))] =
      [Expr.Number 4, Expr.Number 6] ∧
     diceFromChildren [DiceChild.exprChild (Expr.Number 4), DiceChild.exprChild (Expr.Number 6),
        DiceChild.modChild (DiceModifierType.KeepHigh, some (Expr.Number 3))] =
      Expr.Dice (Expr.Number 4) (Expr.Number 6)
        [(DiceModifierType.KeepHigh, some (Expr.Number 3))]) ∧
    (exprChildren [DiceChild.exprChild (Expr.BinaryOp (Expr.Number 1) '+' (Expr.Number 2))] =
      [Expr.BinaryOp (Expr.Number 1) '+' (Expr.Number 2)] ∧
     diceFromChildren [DiceChild.exprChild (Expr.BinaryOp (Expr.Number 1) '+' (Expr.Number 2))] =
      Expr.Dice (Expr.Number 1) (Expr.BinaryOp (Expr.Number 1) '+' (Expr.Number 2)) []) :=
  ⟨⟨rfl,
    (c6_dice_children [DiceChild.exprChild (Expr.Number 4), DiceChild.exprChild (Expr.Number 6),
        DiceChild.modChild (DiceModifierType.KeepHigh, some (Expr.Number 3))]).2
      (Expr.Number 4) (Expr.Number 6) rfl⟩,
   ⟨rfl,
    (c6_dice_children [DiceChild.exprChild (Expr.BinaryOp (Expr.Number 1) '+' (Expr.Number 2))]).1
      (Expr.BinaryOp (Expr.Number 1) '+' (Expr.Number 2)) rfl⟩⟩

lemma roll_ok (sides : Int) (g : Rng) (h : 1 ≤ sides) :
    roll sides g = Except.ok (1 + (Int.ofNat (g 0)) % sides, fun n => g (n + 1)) := by
  unfold roll
  rw [if_neg (by omega)]

lemma roll_bounds (sides r : Int) (g g' : Rng) (h : 1 ≤ sides)
    (heq : roll sides g = Except.ok (r, g')) : 1 ≤ r ∧ r ≤ sides := by
  rw [roll_ok sides g h] at heq
  simp only [Except.ok.injEq, Prod.mk.injEq] at heq
  obtain ⟨⟨h1, _⟩, _⟩ := heq
  have hnn : 0 ≤ (Int.ofNat (g 0)) % sides := Int.emod_nonneg _ (by omega)
  have hlt : (Int.ofNat (g 0)) % sides < sides := Int.emod_lt_of_pos _ (by omega)
  omega

lemma rollN_ok : ∀ (n : Nat) (sides : Int) (g : Rng), 1 ≤ sides →
    ∃ out g', rollN n sides g = Except.ok (out, g') ∧ out.length = n ∧
      ∀ x ∈ out, 1 ≤ x ∧ x ≤ sides := by
  intro n
  induction n with
  | zero => exact fun sides g _ => ⟨[], g, rfl, rfl, by simp⟩
  | succ n ih =>
    intro sides g h
    obtain ⟨out, g', hout, hlen, hmem⟩ := ih sides (fun k => g (k + 1)) h
    refine ⟨(1 + (Int.ofNat (g 0)) % sides) :: out, g', ?_, by simp [hlen], ?_⟩
    · simp only [rollN, roll_ok sides g h, hout]
    · intro x hx
      rcases List.mem_cons.mp hx with hx | hx
      · subst hx
        have hnn : 0 ≤ (Int.ofNat (g 0)) % sides := Int.emod_nonneg _ (by omega)
        have hlt : (Int.ofNat (g 0)) % sides < sides := Int.emod_lt_of_pos _ (by omega)
        omega
      · exact hmem x hx

/-- Claim C7: a `Dice` with scalar operands `count, sides ≥ 1` and no
modifiers evaluates to a `Rolls` sequence of length exactly `count`, every
element in the inclusive range `[1, sides]` (for any random stream and any
fuel reserve; two fuel units cover the fixed recursion depth of this
expression shape). -/
theorem c7_dice_roll_length_range (fuel : Nat) (count sides : Int) (g : Rng)
    (hc : 1 ≤ count) (hs : 1 ≤ sides) :
    ∃ out g',
      eval_expr (fuel + 2) (Expr.Dice (Expr.Number count) (Expr.Number sides) []) g =
        Except.ok (EvalResult.Rolls out, g') ∧
      (out.length : Int) = count ∧ ∀ x ∈ out, 1 ≤ x ∧ x ≤ sides := by
  obtain ⟨out, g', hout, hlen, hmem⟩ := rollN_ok count.toNat sides g hs
  refine ⟨out, g', ?_, ?_, hmem⟩
  · simp only [eval_expr, eval_dice, to_number, hout, eval_modifiers]
  · rw [hlen]
    exact Int.toNat_of_nonneg (by omega)

/-- Witness for C7 at `count = 2`, `sides = 6`, the all-zero raw stream. -/
theorem c7_witness :
    ((1 : Int) ≤ 2 ∧ (1 : Int) ≤ 6) ∧
    (∃ out g',
      eval_expr 2 (Expr.Dice (Expr.Number 2) (Expr.Number 6) []) (fun _ => 0) =
        Except.ok (EvalResult.Rolls out, g') ∧
      (out.length : Int) = 2 ∧ ∀ x ∈ out, 1 ≤ x ∧ x ≤ 6) :=
  ⟨⟨by decide, by decide⟩,
   c7_dice_roll_length_range 0 2 6 (fun _ => 0) (by decide) (by decide)⟩

/-- Claim C3 counterexample: dividing by zero does fail with the
"division by zero!" evaluation error, but the failure channel is a Rust
`panic` (`EvalErr.panic` models `panic`-style aborts escaping the caller;
`eval_expr` in src/src/eval.rs returns a bare `EvalResult` with no `Result`
error branch), not a recoverable error value, contradicting the
"recoverable error (not a process abort)" part of the claim. -/
theorem c3_counterexample :
    eval_expr 2 (Expr.BinaryOp (Expr.Number 4) '/' (Expr.Number 0)) (fun _ => 0) =
      Except.error (EvalErr.panic "division by zero!") := rfl

/-- Claim C3 amended: for every pair of operands whose right side evaluates
to the scalar 0, evaluating `BinaryOp(l, '/', r)` fails with the
"division by zero!" panic — an abort past caller control rather than a
recoverable error value — and never yields a silent zero, infinity or
NaN-like number. -/
theorem c3_div_by_zero_panics (fuel : Nat) (l r : Expr) (g g1 g2 : Rng)
    (resL resR : EvalResult)
    (hl : eval_expr fuel l g = Except.ok (resL, g1))
    (hr : eval_expr fuel r g1 = Except.ok (resR, g2))
    (hz : to_number resR = 0) :
    eval_expr (fuel + 1) (Expr.BinaryOp l '/' r) g =
      Except.error (EvalErr.panic "division by zero!") := by
  simp [eval_expr, eval_op, hl, hr, hz]

/-- Witness for the amended C3 at `4 / 0`. -/
theorem c3_witness :
    (eval_expr 1 (Expr.Number 4) (fun _ => 0) =
       Except.ok (EvalResult.Number 4, fun _ => 0) ∧
     eval_expr 1 (Expr.Number 0) (fun _ => 0) =
       Except.ok (EvalResult.Number 0, fun _ => 0) ∧
     to_number (EvalResult.Number 0) = 0) ∧
    eval_expr 2 (Expr.BinaryOp (Expr.Number 4) '/' (Expr.Number 0)) (fun _ => 0) =
      Except.error (EvalErr.panic "division by zero!") :=
  ⟨⟨rfl, rfl, rfl⟩,
   c3_div_by_zero_panics 1 (Expr.Number 4) (Expr.Number 0) (fun _ => 0) (fun _ => 0)
     (fun _ => 0) (EvalResult.Number 4) (EvalResult.Number 0) rfl rfl rfl⟩

/-- Claim C4 counterexample: a `Dice` whose count evaluates to a negative
value is not rejected — the roll loop `for _ in 0..count` simply runs zero
times and evaluation silently returns the empty `Rolls` result. -/
theorem c4_counterexample :
    eval_expr 2 (Expr.Dice (Expr.Number (-1)) (Expr.Number 6) []) (fun _ => 0) =
      Except.ok (EvalResult.Rolls [], fun _ => 0) := rfl

/-- Claim C4 amended: `eval_dice` performs no validation of `count` or
`sides`.  A negative count silently yields the empty `Rolls` result, and a
`sides` below 1 is only detected — as an "empty range" panic raised inside
the random source — when at least one roll is actually drawn
(`count ≥ 1`); no evaluation error is reported in the claimed sense. -/
theorem c4_no_validation (fuel : Nat) (count sides : Int) (g : Rng) :
    (count < 0 →
      eval_expr (fuel + 2) (Expr.Dice (Expr.Number count) (Expr.Number sides) []) g =
        Except.ok (EvalResult.Rolls [], g)) ∧
    (sides < 1 → 1 ≤ count →
      eval_expr (fuel + 2) (Expr.Dice (Expr.Number count) (Expr.Number sides) []) g =
        Except.error (EvalErr.panic "empty range")) := by
  constructor
  · intro h
    have h0 : count.toNat = 0 := by omega
    simp only [eval_expr, eval_dice, to_number, h0, rollN, eval_modifiers]
  · intro hs hc
    obtain ⟨k, hk⟩ : ∃ k, count.toNat = k + 1 := ⟨count.toNat - 1, by omega⟩
    have hroll : roll sides g = Except.error (EvalErr.panic "empty range") := by
      unfold roll
      rw [if_pos (by omega)]
    simp only [eval_expr, eval_dice, to_number, hk, rollN, hroll]

/-- Witness for the amended C4: count `-1` silently yields `Rolls []`;
`1d0` panics with "empty range" from the random source. -/
theorem c4_witness :
    ((-1 : Int) < 0 ∧
     eval_expr 2 (Expr.Dice (Expr.Number (-1)) (Expr.Number 6) []) (fun _ => 0) =
       Except.ok (EvalResult.Rolls [], fun _ => 0)) ∧
    ((0 : Int) < 1 ∧ (1 : Int) ≤ 1 ∧
     eval_expr 2 (Expr.Dice (Expr.Number 1) (Expr.Number 0) []) (fun _ => 0) =
       Except.error (EvalErr.panic "empty range")) :=
  ⟨⟨by decide, (c4_no_validation 0 (-1) 6 (fun _ => 0)).1 (by decide)⟩,
   ⟨by decide, by decide, (c4_no_validation 0 1 0 (fun _ => 0)).2 (by decide) (by decide)⟩⟩

lemma explodeGo_ones (fuel : Nat) : ∀ (tail : List Int) (g : Rng),
    explodeGo fuel (1 :: tail) 0 1 1 g = Except.error EvalErr.fuelOut := by
  induction fuel with
  | zero => intro tail g; rfl
  | succ fuel ih =>
    intro tail g
    have hlen : 0 < (1 :: tail).length := by simp
    have hget : (1 :: tail).get ⟨0, hlen⟩ = 1 := rfl
    simp only [explodeGo, dif_pos hlen, hget, le_refl, if_true,
      roll_ok 1 g (by norm_num), Int.emod_one, add_zero, lt_irrefl, if_false,
      List.cons_append]
    exact ih (tail ++ [1]) (fun n => g (n + 1))

/-- Claim C2 theorem (the code at the failing input): for the expression
`1d1!` — an `Explode` whose threshold defaults to `sides = 1`, so every
draw re-triggers — evaluation runs out of fuel at every fuel bound and for
every random stream: the Rust while-loop in `explode` never terminates, and
no iteration cap or validation error exists to stop it. -/
theorem c2_explode_threshold_one_diverges (fuel : Nat) (g : Rng) :
    eval_expr fuel
      (Expr.Dice (Expr.Number 1) (Expr.Number 1) [(DiceModifierType.Explode, none)]) g =
      Except.error EvalErr.fuelOut := by
  match fuel with
  | 0 => rfl
  | 1 => rfl
  | f + 2 =>
    have hone : ((1 : Int)).toNat = 1 := rfl
    simp only [eval_expr, eval_dice, to_number, hone, rollN,
      roll_ok 1 g (by norm_num), Int.emod_one, add_zero, eval_modifiers,
      explode, explodeGo_ones]
    simp only [if_true, explodeGo_ones]

lemma explodeGo_spec : ∀ (fuel : Nat) (rolls : List Int) (i : Nat) (sides threshold : Int)
    (g : Rng) (out : List Int) (g' : Rng),
    1 ≤ sides →
    explodeGo fuel rolls i sides threshold g = Except.ok (out, g') →
    i ≤ rolls.length →
    (i = rolls.length → ∀ v, rolls.getLast? = some v → v < threshold) →
    (∃ t, out = rolls ++ t ∧ ∀ x ∈ t, 1 ≤ x ∧ x ≤ sides) ∧
    (∀ v, out.getLast? = some v → v < threshold) := by
  intro fuel
  induction fuel with
  | zero =>
    intro rolls i sides threshold g out g' _ heq _ _
    exact Except.noConfusion heq
  | succ fuel ih =>
    intro rolls i sides threshold g out g' hs heq hle hlast
    simp only [explodeGo] at heq
    split at heq
    · -- i < rolls.length
      rename_i hi
      split at heq
      · -- threshold ≤ rolls[i] : a fresh roll is drawn
        rename_i hth
        split at heq
        · exact Except.noConfusion heq
        · rename_i new_roll g2 hr
          have hb := roll_bounds sides new_roll g g2 hs hr
          split at heq
          · -- fresh roll below threshold: advance i
            have h1 := ih (rolls ++ [new_roll]) (i + 1) sides threshold g2 out g' hs heq
              (by simp; omega) (fun h => by simp at h; omega)
            obtain ⟨⟨t, hout, hrange⟩, hlastout⟩ := h1
            refine ⟨⟨new_roll :: t, ?_, ?_⟩, hlastout⟩
            · rw [hout, List.append_assoc]
              rfl
            · intro x hx
              rcases List.mem_cons.mp hx with hx | hx
              · subst hx; exact hb
              · exact hrange x hx
          · -- fresh roll at/above threshold: stay at i
            have h1 := ih (rolls ++ [new_roll]) i sides threshold g2 out g' hs heq
              (by simp; omega) (fun h => by simp at h; omega)
            obtain ⟨⟨t, hout, hrange⟩, hlastout⟩ := h1
            refine ⟨⟨new_roll :: t, ?_, ?_⟩, hlastout⟩
            · rw [hout, List.append_assoc]
              rfl
            · intro x hx
              rcases List.mem_cons.mp hx with hx | hx
              · subst hx; exact hb
              · exact hrange x hx
      · -- rolls[i] below threshold: move to the next index
        rename_i hth
        refine ih rolls (i + 1) sides threshold g out g' hs heq (by omega) ?_
        intro h v hv
        rw [List.getLast?_eq_getElem?, List.getElem?_eq_getElem (by omega)] at hv
        have hvi : v = rolls.get ⟨i, hi⟩ := by
          have : rolls.length - 1 = i := by omega
          simp only [Option.some.injEq] at hv
          rw [← hv]
          simp [this]
        rw [hvi]
        omega
    · -- i has reached the end of the sequence: the loop returns
      rename_i hi
      have hieq : i = rolls.length := by omega
      simp only [Except.ok.injEq, Prod.mk.injEq] at heq
      obtain ⟨h1, _⟩ := heq
      subst h1
      exact ⟨⟨[], by simp, by simp⟩, hlast hieq⟩

/-- Claim C8: for `Dice` with scalar `count ≥ 1`, `sides ≥ 2` and a single
`Explode` modifier with no value, the explode threshold defaults to `sides`
(the `None` value branch of `eval_modifiers` substitutes the die sides), and
whenever evaluation returns, the result is `Rolls` of length at least
`count` with every element in `[1, sides]`, in which every element at or
above the threshold sits at a non-terminal position — it is followed by at
least one further roll. -/
theorem c8_explode_properties (fuel : Nat) (count sides : Int) (g : Rng)
    (res : EvalResult) (gf : Rng)
    (_hc : 1 ≤ count) (hs : 2 ≤ sides)
    (heq : eval_expr fuel
        (Expr.Dice (Expr.Number count) (Expr.Number sides)
          [(DiceModifierType.Explode, none)]) g = Except.ok (res, gf)) :
    ∃ out, res = EvalResult.Rolls out ∧
      count.toNat ≤ out.length ∧
      (∀ x ∈ out, 1 ≤ x ∧ x ≤ sides) ∧
      ∀ i (h : i < out.length), sides ≤ out.get ⟨i, h⟩ → i + 1 < out.length := by
  match fuel with
  | 0 => exact Except.noConfusion heq
  | 1 => exact Except.noConfusion heq
  | f + 2 =>
    obtain ⟨rolls0, g2, hroll, hlen, hmem⟩ := rollN_ok count.toNat sides g (by omega)
    simp only [eval_expr, eval_dice, to_number, hroll, eval_modifiers, explode, if_true] at heq
    cases hex : explodeGo (f + 1) rolls0 0 sides sides g2 with
    | error e =>
      rw [hex] at heq
      exact Except.noConfusion heq
    | ok p =>
      obtain ⟨rolls1, g3⟩ := p
      rw [hex] at heq
      simp only [eval_modifiers, Except.ok.injEq, Prod.mk.injEq] at heq
      obtain ⟨hres, _⟩ := heq
      have hspec := explodeGo_spec (f + 1) rolls0 0 sides sides g2 rolls1 g3 (by omega) hex
        (by omega)
        (by
          intro h v hv
          have hnil : rolls0 = [] := List.length_eq_zero.mp h.symm
          rw [hnil] at hv
          exact Option.noConfusion hv)
      obtain ⟨⟨t, hout, htr⟩, hlast⟩ := hspec
      refine ⟨rolls1, hres.symm, ?_, ?_, ?_⟩
      · rw [hout, List.length_append]
        omega
      · intro x hx
        rw [hout] at hx
        rcases List.mem_append.mp hx with hx | hx
        · exact hmem x hx
        · exact htr x hx
      · intro i h hge
        by_contra hterm
        have hi : i = rolls1.length - 1 := by omega
        have hv : rolls1.getLast? = some (rolls1.get ⟨i, h⟩) := by
          rw [List.getLast?_eq_getElem?, List.getElem?_eq_getElem (by omega)]
          simp [hi]
        have := hlast _ hv
        omega

/-- Witness for C8 at `1d2!` with the all-zero raw stream: the single draw
is 1, below the default threshold 2, so the result is `Rolls [1]`. -/
theorem c8_witness :
    ((1 : Int) ≤ 1 ∧ (2 : Int) ≤ 2 ∧
     eval_expr 3 (Expr.Dice (Expr.Number 1) (Expr.Number 2)
         [(DiceModifierType.Explode, none)]) (fun _ => 0) =
       Except.ok (EvalResult.Rolls [1], fun _ => 0)) ∧
    (∃ out, EvalResult.Rolls [1] = EvalResult.Rolls out ∧
      (1 : Int).toNat ≤ out.length ∧
      (∀ x ∈ out, 1 ≤ x ∧ x ≤ 2) ∧
      ∀ i (h : i < out.length), 2 ≤ out.get ⟨i, h⟩ → i + 1 < out.length) :=
  ⟨⟨by decide, by decide, rfl⟩,
   c8_explode_properties 3 1 2 (fun _ => 0) (EvalResult.Rolls [1]) (fun _ => 0)
     (by decide) (by decide) rfl⟩

/-- Claim C5 counterexample: the decimal numeral 2147483648 (one past
`i32::MAX`, given as its digit list) is accepted by the number rule of the
grammar, but the conversion in `parse_expr` is
`as_str().parse::<i32>().unwrap()`, so `parse` panics on the overflowing
numeral instead of returning an error. -/
theorem c5_counterexample :
    parseNumeralInput [2, 1, 4, 7, 4, 8, 3, 6, 4, 8] =
      ParseOutcome.panicked "called Result unwrap on an Err value" := rfl

/-- Claim C5 amended: `parse` returns a descriptive error for input the
grammar rejects, but for every decimal numeral whose value does not fit in
`i32` the `unwrap` in the `Rule::number` arm of `parse_expr` panics rather
than returning the error branch of the `Result`. -/
theorem c5_numeral_overflow_panics (ds : List Nat)
    (hd : isDigits ds = true) (hv : 2147483647 < digitsVal ds) :
    parseNumeralInput ds = ParseOutcome.panicked "called Result unwrap on an Err value" := by
  have hnot : ¬ digitsVal ds ≤ 2147483647 := by omega
  simp [parseNumeralInput, rustParseI32, hd, hnot]

/-- Witness for the amended C5 at the numeral 2147483648. -/
theorem c5_witness :
    (isDigits [2, 1, 4, 7, 4, 8, 3, 6, 4, 8] = true ∧
     2147483647 < digitsVal [2, 1, 4, 7, 4, 8, 3, 6, 4, 8]) ∧
    parseNumeralInput [2, 1, 4, 7, 4, 8, 3, 6, 4, 8] =
      ParseOutcome.panicked "called Result unwrap on an Err value" :=
  ⟨⟨by decide, by decide⟩,
   c5_numeral_overflow_panics [2, 1, 4, 7, 4, 8, 3, 6, 4, 8] (by decide) (by decide)⟩
